import Mathlib

/-!
Verification of the MicroRTS benchmark/tournament orchestration scripts.

The definitions below are shallow embeddings of the Python sources:
  * `benchmark_arena.py` (scoring, elimination ladder, benchmark aggregate,
    leaderboard append, config rewrite, match-result parsing),
  * `generate_leaderboard.py` (best-run-per-model selection, aggregation pass),
  * `tournament/run_tournament.py` (identical scoring/parsing code paths),
  * `tournament/update_site_data.py` (head-to-head matrix, site leaderboard).

Numbers are modelled over `ℚ` (the scripts use Python numerics), process
results as explicit data, dictionaries as association lists or partial maps.
-/

/-- Cycle ceiling, `MAX_CYCLES = 1500` in both `benchmark_arena.py` and
`tournament/run_tournament.py`. -/
def MAX_CYCLES : ℚ := 1500

/-- Natural-number view of the cycle ceiling, used where the scripts treat
tick counts as integers. -/
def MAX_CYCLES_NAT : Nat := 1500

/-- Per-game score with an explicit cycle ceiling.  Mirrors
`calculate_game_score(result, ticks)` from `benchmark_arena.py` lines 174-197
(identical to `tournament/run_tournament.py` lines 139-153), with the module
constant `MAX_CYCLES` generalised to the `ceiling` argument. -/
def game_score (ceiling : ℚ) (result : String) (ticks : ℚ) : ℚ :=
  if result = "win" then
    let base : ℚ := 1
    let bonus : ℚ :=
      if ticks < ceiling * (1/2) then 1/5
      else if ticks < ceiling * (3/4) then 1/10
      else 0
    min (6/5) (base + bonus)
  else if result = "draw" then 1/2
  else 0

/-- The source's `calculate_game_score`: `game_score` at the configured
ceiling `MAX_CYCLES`. -/
def calculate_game_score (result : String) (ticks : ℚ) : ℚ :=
  game_score MAX_CYCLES result ticks

/-- `_score_to_grade` from `benchmark_arena.py` lines 228-241. -/
def score_to_grade_arena (score : ℚ) : String :=
  if score ≥ 90 then "A+"
  else if score ≥ 80 then "A"
  else if score ≥ 70 then "B"
  else if score ≥ 60 then "C"
  else if score ≥ 40 then "D"
  else "F"

/-- `_score_to_grade` from `generate_leaderboard.py` lines 25-38. -/
def score_to_grade_leaderboard (score : ℚ) : String :=
  if score ≥ 90 then "A+"
  else if score ≥ 80 then "A"
  else if score ≥ 70 then "B"
  else if score ≥ 60 then "C"
  else if score ≥ 40 then "D"
  else "F"

/-- `score_to_grade` from `tournament/run_tournament.py` lines 171-184. -/
def score_to_grade_tournament (score : ℚ) : String :=
  if score ≥ 90 then "A+"
  else if score ≥ 80 then "A"
  else if score ≥ 70 then "B"
  else if score ≥ 60 then "C"
  else if score ≥ 40 then "D"
  else "F"

/-- `score_to_grade` from `tournament/update_site_data.py` lines 29-41. -/
def score_to_grade_site (score : ℚ) : String :=
  if score ≥ 90 then "A+"
  else if score ≥ 80 then "A"
  else if score ≥ 70 then "B"
  else if score ≥ 60 then "C"
  else if score ≥ 40 then "D"
  else "F"

/-- On a win, the per-game score evaluates to the three-valued speed table. -/
lemma game_score_win_eq (ceiling ticks : ℚ) :
    game_score ceiling "win" ticks =
      (if ticks < ceiling * (1/2) then 6/5
       else if ticks < ceiling * (3/4) then 11/10 else 1) := by
  unfold game_score
  simp only [if_pos rfl]
  split_ifs <;> norm_num

/-- C2: the per-game score function returns, for a win, 1.0 plus a speed
bonus (+0.2 below half the ceiling, +0.1 below three quarters, else +0.0)
capped at 1.2; 0.5 for a draw; 0.0 otherwise.  Every returned value lies in
`{0, 0.5} ∪ [1, 1.2]`, and for wins at a fixed ceiling the score is
monotonically non-increasing in the tick count. -/
theorem game_score_spec (ceiling : ℚ) (result : String) (ticks ticks' : ℚ)
    (ht : 0 ≤ ticks) (hle : ticks ≤ ticks') :
    (game_score ceiling result ticks = 0 ∨ game_score ceiling result ticks = 1/2 ∨
      (1 ≤ game_score ceiling result ticks ∧ game_score ceiling result ticks ≤ 6/5))
    ∧ (result = "win" →
        game_score ceiling result ticks =
          (if ticks < ceiling * (1/2) then 6/5
           else if ticks < ceiling * (3/4) then 11/10 else 1))
    ∧ (result = "draw" → game_score ceiling result ticks = 1/2)
    ∧ (result ≠ "win" → result ≠ "draw" → game_score ceiling result ticks = 0)
    ∧ (result = "win" →
        game_score ceiling result ticks' ≤ game_score ceiling result ticks) := by
  by_cases hw : result = "win"
  · subst hw
    refine ⟨?_, fun _ => game_score_win_eq _ _, by simp [game_score], by simp, ?_⟩
    · right; right
      rw [game_score_win_eq]
      split_ifs <;> norm_num
    · intro _
      rw [game_score_win_eq, game_score_win_eq]
      split_ifs <;> linarith
  · by_cases hd : result = "draw"
    · simp [game_score, hw, hd]
    · simp [game_score, hw, hd]

/-- Witness for `game_score_spec` at a concrete win with 400 ≤ 700 ticks and
ceiling 1500. -/
theorem game_score_spec_witness :
    game_score 1500 "win" 700 ≤ game_score 1500 "win" 400 :=
  (game_score_spec 1500 "win" 400 700 (by norm_num) (by norm_num)).2.2.2.2 rfl

/-- C10: the four duplicated score-to-grade functions are extensionally
equal, and all realise the grade table A+ (≥90), A (≥80), B (≥70), C (≥60),
D (≥40), F (otherwise). -/
theorem score_to_grade_all_equal (s : ℚ) :
    score_to_grade_arena s = score_to_grade_leaderboard s
    ∧ score_to_grade_arena s = score_to_grade_tournament s
    ∧ score_to_grade_arena s = score_to_grade_site s
    ∧ (90 ≤ s → score_to_grade_arena s = "A+")
    ∧ (80 ≤ s → s < 90 → score_to_grade_arena s = "A")
    ∧ (70 ≤ s → s < 80 → score_to_grade_arena s = "B")
    ∧ (60 ≤ s → s < 70 → score_to_grade_arena s = "C")
    ∧ (40 ≤ s → s < 60 → score_to_grade_arena s = "D")
    ∧ (s < 40 → score_to_grade_arena s = "F") := by
  refine ⟨rfl, rfl, rfl, ?_, ?_, ?_, ?_, ?_, ?_⟩ <;>
    (intros; unfold score_to_grade_arena; split_ifs <;> first | rfl | linarith)

/-- Witness for `score_to_grade_all_equal` at the concrete score 85. -/
theorem score_to_grade_all_equal_witness : score_to_grade_arena 85 = "A" :=
  (score_to_grade_all_equal 85).2.2.2.2.1 (by norm_num) (by norm_num)

/-- One recorded game: the `{"result": ..., "ticks": ...}` dict produced by
`run_game` and stored in `reference_games`. -/
structure GameRec where
  result : String
  ticks : Nat
deriving DecidableEq, Repr

/-- `any(g["result"] == "win" for g in games)` from `benchmark_arena.py`
line 464. -/
def hasWin (games : List GameRec) : Bool :=
  games.any (fun g => g.result = "win")

/-- The inner `for game_num in range(games_per_pair)` loop of
`run_tournament`: the whole batch of `n` games against opponent `oppIdx` is
played unconditionally.  `play` is the match oracle standing for `run_game`. -/
def playBatch (play : Nat → Nat → GameRec) (oppIdx n : Nat) : List GameRec :=
  (List.range n).map (play oppIdx)

/-- The `for anchor_class, anchor_info in ANCHORS.items()` loop of
`run_tournament` (`benchmark_arena.py` lines 449-468): record the batch for
the current opponent, then continue only when the batch contains a win;
otherwise the `eliminated` flag stops the walk. -/
def runLadderFrom (play : Nat → Nat → GameRec) (n : Nat) :
    List String → Nat → List (String × List GameRec)
  | [], _ => []
  | a :: rest, i =>
    let games := playBatch play i n
    (a, games) :: (if hasWin games then runLadderFrom play n rest (i + 1) else [])

/-- Full single-elimination ladder walk over the anchor list, starting at the
first opponent. -/
def runLadder (play : Nat → Nat → GameRec) (anchors : List String) (n : Nat) :
    List (String × List GameRec) :=
  runLadderFrom play n anchors 0

/-- Unfolding equation for the ladder walk on a non-empty opponent list. -/
lemma runLadderFrom_cons (play : Nat → Nat → GameRec) (n : Nat) (a : String)
    (rest : List String) (i : Nat) :
    runLadderFrom play n (a :: rest) i =
      (a, playBatch play i n) ::
        (if hasWin (playBatch play i n) then runLadderFrom play n rest (i + 1)
         else []) := rfl

/-- The ladder walk records something precisely when there are opponents. -/
lemma runLadderFrom_eq_nil_iff (play : Nat → Nat → GameRec) (n : Nat)
    (l : List String) (i : Nat) :
    runLadderFrom play n l i = [] ↔ l = [] := by
  cases l with
  | nil => simp [runLadderFrom]
  | cons a rest => simp [runLadderFrom_cons]

/-- The opponents recorded by the ladder walk are an initial segment of the
opponent list, from any starting index. -/
lemma runLadderFrom_fst_initial (play : Nat → Nat → GameRec) (n : Nat) :
    ∀ (l : List String) (i : Nat),
      List.IsPrefix ((runLadderFrom play n l i).map Prod.fst) l := by
  intro l
  induction l with
  | nil => intro i; simp [runLadderFrom]
  | cons a rest ih =>
    intro i
    rw [runLadderFrom_cons]
    by_cases h : hasWin (playBatch play i n) = true
    · rw [if_pos h, List.map_cons]
      exact (List.cons_prefix_cons).mpr ⟨rfl, ih (i + 1)⟩
    · rw [if_neg h]
      exact (List.cons_prefix_cons).mpr ⟨rfl, by simp⟩

/-- Every batch recorded by the ladder walk has exactly `n` games. -/
lemma runLadderFrom_batch_len (play : Nat → Nat → GameRec) (n : Nat) :
    ∀ (l : List String) (i : Nat) (p : String × List GameRec),
      p ∈ runLadderFrom play n l i → p.2.length = n := by
  intro l
  induction l with
  | nil => intro i p hp; simp [runLadderFrom] at hp
  | cons a rest ih =>
    intro i p hp
    rw [runLadderFrom_cons] at hp
    rcases List.mem_cons.mp hp with rfl | hp'
    · simp [playBatch]
    · by_cases h : hasWin (playBatch play i n) = true
      · rw [if_pos h] at hp'
        exact ih (i + 1) p hp'
      · rw [if_neg h] at hp'
        simp at hp'

/-- Every recorded batch except the last one contains a win. -/
lemma runLadderFrom_win_before_last (play : Nat → Nat → GameRec) (n : Nat) :
    ∀ (l : List String) (i : Nat) (p : String × List GameRec),
      p ∈ (runLadderFrom play n l i).dropLast → hasWin p.2 = true := by
  intro l
  induction l with
  | nil => intro i p hp; simp [runLadderFrom] at hp
  | cons a rest ih =>
    intro i p hp
    rw [runLadderFrom_cons] at hp
    by_cases h : hasWin (playBatch play i n) = true
    · rw [if_pos h] at hp
      cases hrec : runLadderFrom play n rest (i + 1) with
      | nil => rw [hrec] at hp; simp at hp
      | cons q qs =>
        rw [hrec] at hp
        rw [List.dropLast_cons₂] at hp
        rcases List.mem_cons.mp hp with rfl | hp'
        · exact h
        · exact ih (i + 1) p (by rw [hrec]; exact hp')
    · rw [if_neg h] at hp
      simp at hp

/-- If the walk stopped before the end of the opponent list, the last
recorded batch has no win (the contestant was eliminated there). -/
lemma runLadderFrom_last_no_win (play : Nat → Nat → GameRec) (n : Nat) :
    ∀ (l : List String) (i : Nat) (p : String × List GameRec),
      (runLadderFrom play n l i).getLast? = some p →
      (runLadderFrom play n l i).length < l.length → hasWin p.2 = false := by
  intro l
  induction l with
  | nil => intro i p hp _; simp [runLadderFrom] at hp
  | cons a rest ih =>
    intro i p hp hlen
    rw [runLadderFrom_cons] at hp hlen
    by_cases h : hasWin (playBatch play i n) = true
    · rw [if_pos h] at hp hlen
      cases hrec : runLadderFrom play n rest (i + 1) with
      | nil =>
        rw [hrec] at hlen
        have : rest = [] := (runLadderFrom_eq_nil_iff play n rest (i + 1)).mp hrec
        subst this
        simp at hlen
      | cons q qs =>
        rw [hrec] at hp hlen
        rw [List.getLast?_cons_cons] at hp
        refine ih (i + 1) p ?_ ?_
        · rw [hrec]; exact hp
        · rw [hrec]
          simpa using Nat.lt_of_succ_lt_succ hlen
    · rw [if_neg h] at hp hlen
      simp at hp
      rw [← hp]
      simpa using h

/-- C1: single-elimination ladder progression.  The recorded opponents form
a prefix of the fixed ladder order; every attempted opponent has exactly
`games_per_pair` recorded games (the whole batch is always played); every
batch before the last recorded one contains at least one win — so an
opponent is attempted only after the previous one yielded a win and no
opponent past the elimination point has any recorded games; and when the
walk stops early, the last recorded batch has no win. -/
theorem ladder_progression (play : Nat → Nat → GameRec) (anchors : List String)
    (n : Nat) :
    List.IsPrefix ((runLadder play anchors n).map Prod.fst) anchors
    ∧ (∀ p ∈ runLadder play anchors n, p.2.length = n)
    ∧ (∀ p ∈ (runLadder play anchors n).dropLast, hasWin p.2 = true)
    ∧ (∀ p, (runLadder play anchors n).getLast? = some p →
        (runLadder play anchors n).length < anchors.length →
        hasWin p.2 = false) :=
  ⟨runLadderFrom_fst_initial play n anchors 0,
   fun p hp => runLadderFrom_batch_len play n anchors 0 p hp,
   fun p hp => runLadderFrom_win_before_last play n anchors 0 p hp,
   fun p hp hlen => runLadderFrom_last_no_win play n anchors 0 p hp hlen⟩

/-- Concrete ladder oracle for the witnesses: a fast win against the first
opponent, then losses. -/
def demoPlay : Nat → Nat → GameRec :=
  fun i _ => if i = 0 then ⟨"win", 400⟩ else ⟨"loss", 1000⟩

/-- Witness for `ladder_progression` on a three-opponent ladder with one game
per matchup: the cleared first batch has a win, and the walk stops at the
second opponent whose batch has no win. -/
theorem ladder_progression_witness :
    hasWin [GameRec.mk "win" 400] = true ∧ hasWin [GameRec.mk "loss" 1000] = false :=
  ⟨(ladder_progression demoPlay ["A", "B", "C"] 1).2.2.1
      ("A", [GameRec.mk "win" 400]) (by decide),
   (ladder_progression demoPlay ["A", "B", "C"] 1).2.2.2
      ("B", [GameRec.mk "loss" 1000]) (by decide) (by decide)⟩

/-- Python's `round` to an integer: nearest integer, ties to the even
neighbour (banker's rounding), on exact rationals. -/
def pyRoundInt (q : ℚ) : ℤ :=
  if q - (⌊q⌋ : ℚ) = 1/2 then (if ⌊q⌋ % 2 = 0 then ⌊q⌋ else ⌊q⌋ + 1)
  else round q

/-- Python's `round(x, 1)`: one decimal digit. -/
def round1 (q : ℚ) : ℚ := ((pyRoundInt (10 * q) : ℚ)) / 10

/-- The fixed anchor ladder with its weights, `ANCHORS` from
`benchmark_arena.py` lines 43-74 (same set in
`tournament/run_tournament.py`).  Weights sum to 100. -/
def ANCHORS : List (String × ℚ) :=
  [("ai.RandomBiasedAI", 10),
   ("ai.abstraction.HeavyRush", 20),
   ("ai.abstraction.LightRush", 15),
   ("ai.abstraction.WorkerRush", 15),
   ("ai.competition.tiamat.Tiamat", 20),
   ("ai.coac.CoacAI", 20)]

/-- `anchor_class in llm_results` / `llm_results[anchor_class]` on the
association-list model of the results dict. -/
def lookupGames (results : List (String × List GameRec)) (cls : String) :
    Option (List GameRec) :=
  (results.find? (fun p => p.1 == cls)).map Prod.snd

/-- `sum(calculate_game_score(...) for g in games) / len(games)` from
`calculate_benchmark_score` (`benchmark_arena.py` lines 216-219). -/
def batchAvgScore (games : List GameRec) : ℚ :=
  ((games.map (fun g => calculate_game_score g.result (g.ticks : ℚ))).sum) /
    (games.length : ℚ)

/-- One step of the `for anchor_class, anchor_info in ANCHORS.items()`
accumulation in `calculate_benchmark_score`: skip absent or empty entries,
otherwise add the weighted per-opponent average. -/
def benchStep (results : List (String × List GameRec)) (acc : ℚ)
    (p : String × ℚ) : ℚ :=
  match lookupGames results p.1 with
  | none => acc
  | some [] => acc
  | some games => acc + batchAvgScore games * p.2

/-- `calculate_benchmark_score(llm_results)` from `benchmark_arena.py`
lines 200-225 (identical to `tournament/run_tournament.py` lines 156-168):
weighted sum of per-opponent averages, rounded to one decimal. -/
def calculate_benchmark_score (anchors : List (String × ℚ))
    (results : List (String × List GameRec)) : ℚ :=
  round1 (anchors.foldl (benchStep results) 0)

/-- Every per-game score lies in `[0, 6/5]`. -/
lemma game_score_bounds (c : ℚ) (r : String) (t : ℚ) :
    0 ≤ game_score c r t ∧ game_score c r t ≤ 6/5 := by
  unfold game_score
  split_ifs <;> constructor <;> norm_num [min_def]

/-- The sum of per-game scores of a batch lies in `[0, (6/5)·len]`. -/
lemma scores_sum_bounds (games : List GameRec) :
    0 ≤ (games.map (fun g => calculate_game_score g.result (g.ticks : ℚ))).sum
    ∧ (games.map (fun g => calculate_game_score g.result (g.ticks : ℚ))).sum ≤
        (6/5) * games.length := by
  induction games with
  | nil => simp
  | cons g gs ih =>
    have hb : 0 ≤ calculate_game_score g.result (g.ticks : ℚ)
        ∧ calculate_game_score g.result (g.ticks : ℚ) ≤ 6/5 :=
      game_score_bounds MAX_CYCLES g.result (g.ticks : ℚ)
    simp only [List.map_cons, List.sum_cons, List.length_cons]
    push_cast
    constructor
    · linarith [ih.1, hb.1]
    · linarith [ih.2, hb.2]

/-- A per-opponent average score lies in `[0, 6/5]` (the empty batch counts
as 0 under rational division). -/
lemma batchAvgScore_bounds (games : List GameRec) :
    0 ≤ batchAvgScore games ∧ batchAvgScore games ≤ 6/5 := by
  rcases games with _ | ⟨g, gs⟩
  · refine ⟨by simp [batchAvgScore], by norm_num [batchAvgScore]⟩
  · have hs := scores_sum_bounds (g :: gs)
    have hlen : (0 : ℚ) < ((g :: gs).length : ℚ) := by
      have : 0 < (g :: gs).length := Nat.succ_pos _
      exact_mod_cast this
    unfold batchAvgScore
    constructor
    · exact div_nonneg hs.1 hlen.le
    · rw [div_le_iff₀ hlen]
      exact hs.2

/-- One accumulation step adds a value in `[0, (6/5) · weight]`. -/
lemma benchStep_bounds (results : List (String × List GameRec)) (acc : ℚ)
    (p : String × ℚ) (hw : 0 ≤ p.2) :
    acc ≤ benchStep results acc p ∧ benchStep results acc p ≤ acc + (6/5) * p.2 := by
  unfold benchStep
  rcases lookupGames results p.1 with _ | games
  · exact ⟨le_refl acc, by linarith⟩
  · rcases games with _ | ⟨g, gs⟩
    · exact ⟨le_refl acc, by linarith⟩
    · have hb := batchAvgScore_bounds (g :: gs)
      show acc ≤ acc + batchAvgScore (g :: gs) * p.2
          ∧ acc + batchAvgScore (g :: gs) * p.2 ≤ acc + 6/5 * p.2
      constructor
      · have : 0 ≤ batchAvgScore (g :: gs) * p.2 := mul_nonneg hb.1 hw
        linarith
      · have : batchAvgScore (g :: gs) * p.2 ≤ (6/5) * p.2 :=
          mul_le_mul_of_nonneg_right hb.2 hw
        linarith

/-- The raw (pre-rounding) benchmark total accumulates between `acc` and
`acc + (6/5) · Σ weights`, for non-negative weights. -/
lemma benchFold_bounds (results : List (String × List GameRec)) :
    ∀ (anchors : List (String × ℚ)) (acc : ℚ),
      (∀ p ∈ anchors, 0 ≤ p.2) →
      acc ≤ anchors.foldl (benchStep results) acc
      ∧ anchors.foldl (benchStep results) acc ≤
          acc + (6/5) * ((anchors.map Prod.snd).sum) := by
  intro anchors
  induction anchors with
  | nil => intro acc _; simp
  | cons a rest ih =>
    intro acc hw
    have hw0 : 0 ≤ a.2 := hw a (List.mem_cons_self a rest)
    have hwr : ∀ p ∈ rest, 0 ≤ p.2 := fun p hp => hw p (List.mem_cons_of_mem a hp)
    have hstep := benchStep_bounds results acc a hw0
    have ihs := ih (benchStep results acc a) hwr
    simp only [List.foldl_cons, List.map_cons, List.sum_cons]
    constructor
    · exact hstep.1.trans ihs.1
    · have hrest_sum : 0 ≤ ((rest.map Prod.snd).sum) := by
        apply List.sum_nonneg
        intro x hx
        rcases List.mem_map.mp hx with ⟨p, hp, rfl⟩
        exact hwr p hp
      calc List.foldl (benchStep results) (benchStep results acc a) rest
          ≤ benchStep results acc a + (6/5) * ((rest.map Prod.snd).sum) := ihs.2
        _ ≤ acc + (6/5) * a.2 + (6/5) * ((rest.map Prod.snd).sum) := by
            linarith [hstep.2]
        _ = acc + (6/5) * (a.2 + (rest.map Prod.snd).sum) := by ring

/-- Banker's rounding stays between the floor and the ceiling. -/
lemma pyRoundInt_bounds (q : ℚ) : ⌊q⌋ ≤ pyRoundInt q ∧ pyRoundInt q ≤ ⌈q⌉ := by
  unfold pyRoundInt
  split_ifs with h1 h2
  · exact ⟨le_refl _, Int.floor_le_ceil q⟩
  · have hq : (⌊q⌋ : ℚ) < q := by linarith
    have : ⌊q⌋ < ⌈q⌉ := by
      have h2' : (⌊q⌋ : ℚ) < (⌈q⌉ : ℚ) := lt_of_lt_of_le hq (Int.le_ceil q)
      exact_mod_cast h2'
    exact ⟨by omega, by omega⟩
  · rw [round_eq]
    constructor
    · exact Int.floor_mono (by linarith)
    · by_contra hcon
      push_neg at hcon
      have h1' : (⌈q⌉ : ℚ) + 1 ≤ (⌊q + 1/2⌋ : ℚ) := by exact_mod_cast hcon
      have h2' : (⌊q + 1/2⌋ : ℚ) ≤ q + 1/2 := Int.floor_le _
      have h3' : q ≤ (⌈q⌉ : ℚ) := Int.le_ceil q
      linarith

/-- C3 (amended): for the code's anchor set (weights summing to 100), the
aggregate benchmark score lies in `[0, 1.2 · Σ weights] = [0, 120]` — not in
`[0, 100]`, because each per-game score can reach 1.2. -/
theorem benchmark_score_bounds (results : List (String × List GameRec)) :
    0 ≤ calculate_benchmark_score ANCHORS results
    ∧ calculate_benchmark_score ANCHORS results ≤ 120 := by
  have hw : ∀ p ∈ ANCHORS, 0 ≤ p.2 := by decide
  have hsum : ((ANCHORS.map Prod.snd).sum) = 100 := by
    norm_num [ANCHORS]
  have hb := benchFold_bounds results ANCHORS 0 hw
  rw [hsum] at hb
  set x := ANCHORS.foldl (benchStep results) 0 with hx
  have hx0 : 0 ≤ x := hb.1
  have hx1 : x ≤ 120 := by linarith [hb.2]
  have h10 : (0 : ℚ) ≤ 10 * x := by linarith
  have h10' : 10 * x ≤ 1200 := by linarith
  have hpr := pyRoundInt_bounds (10 * x)
  have hfl : (0 : ℤ) ≤ ⌊10 * x⌋ := Int.le_floor.mpr (by exact_mod_cast h10)
  have hcl : ⌈10 * x⌉ ≤ (1200 : ℤ) := Int.ceil_le.mpr (by exact_mod_cast h10')
  have hp0 : (0 : ℤ) ≤ pyRoundInt (10 * x) := le_trans hfl hpr.1
  have hp1 : pyRoundInt (10 * x) ≤ 1200 := le_trans hpr.2 hcl
  unfold calculate_benchmark_score round1
  rw [← hx]
  constructor
  · apply div_nonneg _ (by norm_num)
    exact_mod_cast hp0
  · rw [div_le_iff₀ (by norm_num : (0:ℚ) < 10)]
    have : (pyRoundInt (10 * x) : ℚ) ≤ (1200 : ℚ) := by exact_mod_cast hp1
    linarith

/-- The all-fast-wins ladder outcome over the real anchor ladder: every
anchor beaten in 400 ticks with one game per matchup. -/
def allWinResults : List (String × List GameRec) :=
  runLadder (fun _ _ => ⟨"win", 400⟩) (ANCHORS.map Prod.fst) 1

/-- Rounding to one decimal leaves integers unchanged. -/
lemma round1_intCast (n : ℤ) : round1 ((n : ℚ)) = (n : ℚ) := by
  unfold round1 pyRoundInt
  rw [show (10 : ℚ) * (n : ℚ) = ((10 * n : ℤ) : ℚ) by push_cast; ring]
  rw [Int.floor_intCast, round_intCast]
  norm_num

/-- Counterexample to C3 as stated: a well-formed ladder result set (weights
sum to 100) whose aggregate benchmark score is 120, outside `[0, 100]`. -/
theorem benchmark_score_above_100 :
    calculate_benchmark_score ANCHORS allWinResults = 120
    ∧ ¬(calculate_benchmark_score ANCHORS allWinResults ≤ 100) := by
  have l1 : lookupGames allWinResults "ai.RandomBiasedAI" = some [⟨"win", 400⟩] := by
    decide
  have l2 : lookupGames allWinResults "ai.abstraction.HeavyRush" = some [⟨"win", 400⟩] := by
    decide
  have l3 : lookupGames allWinResults "ai.abstraction.LightRush" = some [⟨"win", 400⟩] := by
    decide
  have l4 : lookupGames allWinResults "ai.abstraction.WorkerRush" = some [⟨"win", 400⟩] := by
    decide
  have l5 : lookupGames allWinResults "ai.competition.tiamat.Tiamat" = some [⟨"win", 400⟩] := by
    decide
  have l6 : lookupGames allWinResults "ai.coac.CoacAI" = some [⟨"win", 400⟩] := by
    decide
  have htotal : ANCHORS.foldl (benchStep allWinResults) 0 = 120 := by
    simp only [ANCHORS, List.foldl_cons, List.foldl_nil, benchStep,
      l1, l2, l3, l4, l5, l6, batchAvgScore, List.map_cons, List.map_nil,
      List.sum_cons, List.sum_nil, List.length_cons, List.length_nil,
      calculate_game_score, game_score_win_eq, MAX_CYCLES]
    norm_num
  unfold calculate_benchmark_score
  rw [htotal]
  have h120 := round1_intCast 120
  norm_num at h120
  rw [h120]
  norm_num

/-- One loaded run-record entry as built by `load_all_results` in
`generate_leaderboard.py` (the fields consulted by the merge, plus
`source_file` which distinguishes physically different entries). -/
structure RunEntry where
  model : String
  score : ℚ
  version : String
  date : String
  source_file : String
deriving DecidableEq, Repr

/-- The replacement condition of `find_best_per_model`
(`generate_leaderboard.py` lines 129-134): strictly higher score, or equal
score and lexicographically greater version string, or equal score and
version and lexicographically greater date string. -/
def better (e prev : RunEntry) : Bool :=
  if prev.score < e.score then true
  else if e.score = prev.score ∧ prev.version < e.version then true
  else if e.score = prev.score ∧ e.version = prev.version ∧ prev.date < e.date then true
  else false

/-- One iteration of the `for entry in entries` loop of
`find_best_per_model`, restricted to the dict slot of model `m`: the first
entry for `m` is kept, a later one replaces it only when `better`. -/
def stepBest (m : String) (acc : Option RunEntry) (e : RunEntry) :
    Option RunEntry :=
  if e.model = m then
    match acc with
    | none => some e
    | some prev => if better e prev then some e else some prev
  else acc

/-- The slot for model `m` after `find_best_per_model` has consumed the
entry list in order. -/
def bestFor (m : String) (entries : List RunEntry) : Option RunEntry :=
  entries.foldl (stepBest m) none

/-- `better` spelt out as a proposition. -/
lemma better_iff (e p : RunEntry) :
    better e p = true ↔
      (p.score < e.score ∨ (e.score = p.score ∧ p.version < e.version) ∨
       (e.score = p.score ∧ e.version = p.version ∧ p.date < e.date)) := by
  unfold better
  split_ifs with h1 h2 h3 <;> simp_all

/-- `better` is irreflexive. -/
lemma better_irrefl (e : RunEntry) : better e e = false := by
  unfold better
  split_ifs with h1 h2 h3 <;> first | rfl | simp_all

/-- `better` is asymmetric. -/
lemma better_asymm (e p : RunEntry) (h : better e p = true) :
    better p e = false := by
  rw [better_iff] at h
  by_contra hcon
  rw [← ne_eq, Bool.ne_false_iff, better_iff] at hcon
  rcases h with h | ⟨hs, hv⟩ | ⟨hs, hv, hd⟩ <;>
    rcases hcon with h' | ⟨hs', hv'⟩ | ⟨hs', hv', hd'⟩ <;>
      first
        | exact absurd (h.trans h') (lt_irrefl _)
        | exact absurd (hv.trans hv') (lt_irrefl _)
        | exact absurd (hd.trans hd') (lt_irrefl _)
        | simp_all

/-- `better` is transitive. -/
lemma better_trans (a b c : RunEntry) (hab : better a b = true)
    (hbc : better b c = true) : better a c = true := by
  rw [better_iff] at hab hbc ⊢
  rcases hab with h | ⟨hs, hv⟩ | ⟨hs, hv, hd⟩ <;>
    rcases hbc with h' | ⟨hs', hv'⟩ | ⟨hs', hv', hd'⟩
  · exact Or.inl (h'.trans h)
  · exact Or.inl (hs'.symm ▸ h)
  · exact Or.inl (hs'.symm ▸ h)
  · exact Or.inl (hs ▸ h')
  · exact Or.inr (Or.inl ⟨hs.trans hs', hv'.trans hv⟩)
  · exact Or.inr (Or.inl ⟨hs.trans hs', hv'.symm ▸ hv⟩)
  · exact Or.inl (hs ▸ h')
  · exact Or.inr (Or.inl ⟨hs.trans hs', hv ▸ hv'⟩)
  · exact Or.inr (Or.inr ⟨hs.trans hs', hv.trans hv', hd'.trans hd⟩)

/-- Fold invariant for `stepBest`: whatever the starting slot, the final
slot content came from the list (or was the start), is never beaten by a
list element of the model, and dominates the starting content. -/
lemma stepBest_fold_spec (m : String) :
    ∀ (l : List RunEntry) (acc : Option RunEntry) (b : RunEntry),
      l.foldl (stepBest m) acc = some b →
      (acc = some b ∨ (b ∈ l ∧ b.model = m))
      ∧ (∀ x ∈ l, x.model = m → better x b = false)
      ∧ (∀ a, acc = some a → (b = a ∨ better b a = true)) := by
  intro l
  induction l with
  | nil =>
    intro acc b hfold
    simp only [List.foldl_nil] at hfold
    exact ⟨Or.inl hfold, by simp, fun a ha => by rw [hfold] at ha; simp_all⟩
  | cons e t ih =>
    intro acc b hfold
    simp only [List.foldl_cons] at hfold
    obtain ⟨hsrc, hmax, hacc⟩ := ih (stepBest m acc e) b hfold
    by_cases hm : e.model = m
    · rcases acc with _ | a
      · have hse : stepBest m none e = some e := by simp [stepBest, hm]
        rw [hse] at hsrc hacc
        constructor
        · rcases hsrc with h | h
          · have hbe' : b = e := by simpa using h.symm
            exact Or.inr ⟨hbe' ▸ List.mem_cons_self e t, hbe' ▸ hm⟩
          · exact Or.inr ⟨List.mem_cons_of_mem e h.1, h.2⟩
        refine ⟨?_, ?_⟩
        · intro x hx hxm
          rcases List.mem_cons.mp hx with rfl | hx'
          · rcases hacc x rfl with rfl | hb
            · exact better_irrefl _
            · exact better_asymm b _ hb
          · exact hmax x hx' hxm
        · intro a ha
          exact absurd ha (by simp)
      · by_cases hbe : better e a = true
        · have hse : stepBest m (some a) e = some e := by
            simp [stepBest, hm, hbe]
          rw [hse] at hsrc hacc
          constructor
          · rcases hsrc with h | h
            · have hbe' : b = e := by simpa using h.symm
              exact Or.inr ⟨hbe' ▸ List.mem_cons_self e t, hbe' ▸ hm⟩
            · exact Or.inr ⟨List.mem_cons_of_mem e h.1, h.2⟩
          refine ⟨?_, ?_⟩
          · intro x hx hxm
            rcases List.mem_cons.mp hx with rfl | hx'
            · rcases hacc x rfl with rfl | hb
              · exact better_irrefl _
              · exact better_asymm b _ hb
            · exact hmax x hx' hxm
          · intro a' ha'
            have haa : a' = a := by simpa using ha'.symm
            subst haa
            rcases hacc e rfl with rfl | hb
            · exact Or.inr hbe
            · exact Or.inr (better_trans b e a' hb hbe)
        · have hse : stepBest m (some a) e = some a := by
            simp [stepBest, hm, hbe]
          rw [hse] at hsrc hacc
          constructor
          · rcases hsrc with h | h
            · exact Or.inl h
            · exact Or.inr ⟨List.mem_cons_of_mem e h.1, h.2⟩
          refine ⟨?_, ?_⟩
          · intro x hx hxm
            rcases List.mem_cons.mp hx with rfl | hx'
            · rcases hacc a rfl with rfl | hb
              · simpa using hbe
              · by_contra hcon
                rw [← ne_eq, Bool.ne_false_iff] at hcon
                have := better_trans x b a hcon hb
                exact absurd this (by simpa using hbe)
            · exact hmax x hx' hxm
          · intro a' ha'
            have haa : a' = a := by simpa using ha'.symm
            subst haa
            exact hacc a' rfl
    · have hse : stepBest m acc e = acc := by simp [stepBest, hm]
      rw [hse] at hsrc hacc
      refine ⟨?_, ?_, hacc⟩
      · rcases hsrc with h | h
        · exact Or.inl h
        · exact Or.inr ⟨List.mem_cons_of_mem e h.1, h.2⟩
      · intro x hx hxm
        rcases List.mem_cons.mp hx with rfl | hx'
        · exact absurd hxm hm
        · exact hmax x hx' hxm

/-- The slot for `m` is empty precisely when no entry has model `m`. -/
lemma stepBest_fold_none (m : String) :
    ∀ (l : List RunEntry) (acc : Option RunEntry),
      l.foldl (stepBest m) acc = none ↔ (acc = none ∧ ∀ e ∈ l, e.model ≠ m) := by
  intro l
  induction l with
  | nil => intro acc; simp
  | cons e t ih =>
    intro acc
    simp only [List.foldl_cons, ih (stepBest m acc e)]
    constructor
    · rintro ⟨h1, h2⟩
      by_cases hm : e.model = m
      · exfalso
        rcases acc with _ | a
        · rw [show stepBest m none e = some e from by simp [stepBest, hm]] at h1
          exact absurd h1 (by simp)
        · by_cases hbe : better e a = true
          · rw [show stepBest m (some a) e = some e from by
              simp [stepBest, hm, hbe]] at h1
            exact absurd h1 (by simp)
          · rw [show stepBest m (some a) e = some a from by
              simp [stepBest, hm, hbe]] at h1
            exact absurd h1 (by simp)
      · rw [show stepBest m acc e = acc by simp [stepBest, hm]] at h1
        exact ⟨h1, by
          intro x hx
          rcases List.mem_cons.mp hx with rfl | hx'
          · exact hm
          · exact h2 x hx'⟩
    · rintro ⟨h1, h2⟩
      have hm : e.model ≠ m := h2 e (List.mem_cons_self e t)
      rw [show stepBest m acc e = acc by simp [stepBest, hm]]
      exact ⟨h1, fun x hx => h2 x (List.mem_cons_of_mem e hx)⟩

/-- C4: per-model best-run selection.  The kept entry for a model is one of
that model's entries and no entry of the model beats it under the code's
replacement order; and that order is exactly: higher score wins, then (on
equal score) greater version string, then (on equal score and version)
later timestamp string. -/
theorem find_best_per_model_order (m : String) (l : List RunEntry)
    (b : RunEntry) (hb : bestFor m l = some b) :
    b ∈ l ∧ b.model = m
    ∧ (∀ x ∈ l, x.model = m → better x b = false)
    ∧ (∀ e p : RunEntry, better e p = true ↔
        (p.score < e.score ∨ (e.score = p.score ∧ p.version < e.version) ∨
         (e.score = p.score ∧ e.version = p.version ∧ p.date < e.date))) := by
  obtain ⟨hsrc, hmax, _⟩ := stepBest_fold_spec m l none b hb
  rcases hsrc with h | h
  · exact absurd h (by simp)
  · exact ⟨h.1, h.2, hmax, better_iff⟩

/-- Concrete run entries for the witnesses: an older low-scoring run and a
newer higher-scoring run of the same model. -/
def entryOld : RunEntry :=
  ⟨"modelX", 55, "1.0", "2025-01-01T00:00:00", "benchmark_a.json"⟩

/-- The later, higher-scoring entry of the same model. -/
def entryNew : RunEntry :=
  ⟨"modelX", 62, "2.0", "2025-02-01T00:00:00", "benchmark_b.json"⟩

/-- Witness for `find_best_per_model_order`: on the two concrete entries the
selection keeps the higher-scoring one, which the older entry does not beat. -/
theorem find_best_per_model_order_witness :
    entryNew.model = "modelX" ∧ better entryOld entryNew = false :=
  ⟨(find_best_per_model_order "modelX" [entryOld, entryNew] entryNew
      (by decide)).2.1,
   (find_best_per_model_order "modelX" [entryOld, entryNew] entryNew
      (by decide)).2.2.1 entryOld (by decide) (by decide)⟩

/-- Two physically different entries that tie on model, score, version and
date (they differ in `source_file`). -/
def tieEntryA : RunEntry :=
  ⟨"modelX", 50, "2.0", "2025-03-01T00:00:00", "benchmark_a.json"⟩

/-- The other member of the full tie. -/
def tieEntryB : RunEntry :=
  ⟨"modelX", 50, "2.0", "2025-03-01T00:00:00", "benchmark_b.json"⟩

/-- Counterexample to C5 as stated: swapping the supply order of two entries
that fully tie on (score, version, date) changes which entry the merge
keeps, so best-per-model selection is not permutation-invariant. -/
theorem best_per_model_order_dependent :
    List.Perm [tieEntryA, tieEntryB] [tieEntryB, tieEntryA]
    ∧ bestFor "modelX" [tieEntryA, tieEntryB] ≠
        bestFor "modelX" [tieEntryB, tieEntryA] := by
  have hBA : better tieEntryB tieEntryA = false := by
    unfold better tieEntryA tieEntryB
    norm_num [lt_self_iff_false]
  have hAB : better tieEntryA tieEntryB = false := by
    unfold better tieEntryA tieEntryB
    norm_num [lt_self_iff_false]
  have hmA : tieEntryA.model = "modelX" := rfl
  have hmB : tieEntryB.model = "modelX" := rfl
  constructor
  · exact List.Perm.swap tieEntryB tieEntryA []
  · have h1 : bestFor "modelX" [tieEntryA, tieEntryB] = some tieEntryA := by
      simp [bestFor, stepBest, hBA, hmA, hmB]
    have h2 : bestFor "modelX" [tieEntryB, tieEntryA] = some tieEntryB := by
      simp [bestFor, stepBest, hAB, hmA, hmB]
    rw [h1, h2]
    simp [tieEntryA, tieEntryB]

/-- C5 (amended): the best-per-model selection is permutation-invariant
provided no two distinct entries of the same model tie on all of score,
version and date (so the replacement order is total on that model's
entries). -/
theorem best_per_model_perm_invariant (m : String) (l l' : List RunEntry)
    (hperm : List.Perm l l')
    (htotal : ∀ e1 e2 : RunEntry, e1 ∈ l → e2 ∈ l → e1.model = m →
      e2.model = m → e1 ≠ e2 → better e1 e2 = true ∨ better e2 e1 = true) :
    bestFor m l = bestFor m l' := by
  rcases hl : bestFor m l with _ | b
  · rcases hl' : bestFor m l' with _ | b'
    · rfl
    · obtain ⟨hsrc', _, _⟩ := stepBest_fold_spec m l' none b' hl'
      rcases hsrc' with h | h
      · exact absurd h (by simp)
      · have hnone := (stepBest_fold_none m l none).mp hl
        exact absurd h.2 (hnone.2 b' (hperm.mem_iff.mpr h.1))
  · rcases hl' : bestFor m l' with _ | b'
    · obtain ⟨hsrc, _, _⟩ := stepBest_fold_spec m l none b hl
      rcases hsrc with h | h
      · exact absurd h (by simp)
      · have hnone := (stepBest_fold_none m l' none).mp hl'
        exact absurd h.2 (hnone.2 b (hperm.mem_iff.mp h.1))
    · obtain ⟨hsrc, hmax, _⟩ := stepBest_fold_spec m l none b hl
      obtain ⟨hsrc', hmax', _⟩ := stepBest_fold_spec m l' none b' hl'
      rcases hsrc with h | h
      · exact absurd h (by simp)
      rcases hsrc' with h' | h'
      · exact absurd h' (by simp)
      have hb'l : b' ∈ l := hperm.mem_iff.mpr h'.1
      have hbl' : b ∈ l' := hperm.mem_iff.mp h.1
      by_cases heq : b = b'
      · rw [heq]
      · rcases htotal b b' h.1 hb'l h.2 h'.2 heq with hbb | hbb
        · exact absurd hbb (by simp [hmax' b hbl' h.2])
        · exact absurd hbb (by simp [hmax b' hb'l h'.2])

/-- Witness for `best_per_model_perm_invariant` on the two concrete entries
with distinct scores: both supply orders select the same entry. -/
theorem best_per_model_perm_invariant_witness :
    bestFor "modelX" [entryOld, entryNew] =
      bestFor "modelX" [entryNew, entryOld] :=
  best_per_model_perm_invariant "modelX" [entryOld, entryNew]
    [entryNew, entryOld] (List.Perm.swap entryNew entryOld [])
    (by
      intro e1 e2 h1 h2 _ _ hne
      have hbT : better entryNew entryOld = true := by
        unfold better entryNew entryOld
        norm_num
      simp only [List.mem_cons, List.not_mem_nil, or_false] at h1 h2
      rcases h1 with rfl | rfl <;> rcases h2 with rfl | rfl
      · exact absurd rfl hne
      · exact Or.inr hbT
      · exact Or.inl hbT
      · exact absurd rfl hne)

/-- Python's `\s` character class over the ASCII output stream. -/
def isPySpace (c : Char) : Bool :=
  c == ' ' || c == '\t' || c == '\n' || c == '\r' || c == '\x0b' || c == '\x0c'

/-- Decimal value of a digit run, as Python's `int` on the matched group. -/
def natOfDigits (ds : List Char) : Nat :=
  ds.foldl (fun a c => a * 10 + (c.toNat - '0'.toNat)) 0

/-- Match a literal at the head of the character stream and return the rest. -/
def dropLit : List Char → List Char → Option (List Char)
  | [], cs => some cs
  | _ :: _, [] => none
  | p :: ps, c :: cs => if p = c then dropLit ps cs else none

/-- Try the regex `WINNER:\s*(-?\d+)` anchored at this position. -/
def tryWinnerAt (cs : List Char) : Option Int :=
  match dropLit "WINNER:".toList cs with
  | none => none
  | some rest =>
    let rest2 := rest.dropWhile isPySpace
    match rest2 with
    | '-' :: rest3 =>
      let ds := rest3.takeWhile Char.isDigit
      if ds.isEmpty then none else some (-(natOfDigits ds : Int))
    | _ =>
      let ds := rest2.takeWhile Char.isDigit
      if ds.isEmpty then none else some ((natOfDigits ds : Int))

/-- `re.search(r'WINNER:\s*(-?\d+)', output)`: leftmost match wins. -/
def scanWinner : List Char → Option Int
  | [] => none
  | c :: cs =>
    match tryWinnerAt (c :: cs) with
    | some w => some w
    | none => scanWinner cs

/-- Try the regex `FINAL_TICK:\s*(\d+)` anchored at this position. -/
def tryTickAt (cs : List Char) : Option Nat :=
  match dropLit "FINAL_TICK:".toList cs with
  | none => none
  | some rest =>
    let rest2 := rest.dropWhile isPySpace
    let ds := rest2.takeWhile Char.isDigit
    if ds.isEmpty then none else some (natOfDigits ds)

/-- `re.search(r'FINAL_TICK:\s*(\d+)', output)`. -/
def scanTick : List Char → Option Nat
  | [] => none
  | c :: cs =>
    match tryTickAt (c :: cs) with
    | some t => some t
    | none => scanTick cs

/-- Python's `pat in hay` substring test. -/
def containsStr : List Char → List Char → Bool
  | [], pat => pat.isEmpty
  | c :: cs, pat => pat.isPrefixOf (c :: cs) || containsStr cs pat

/-- How the one external game process can end, as seen by `run_game`:
`subprocess.run` raises `TimeoutExpired`, raises some other exception, or
returns with a combined stdout+stderr text. -/
inductive ProcOutcome where
  | timeout
  | exn (msg : String)
  | completed (output : String)
deriving DecidableEq, Repr

/-- The result dict returned by `run_game`. -/
structure MatchResult where
  result : String
  ticks : Nat
  error : Option String
deriving DecidableEq, Repr

/-- `run_game(ai1, ai2)` from `benchmark_arena.py` lines 114-171 (identical
parsing in `tournament/run_tournament.py` lines 85-136), as a function of
the process outcome: timeout → `timeout` at the cycle ceiling; any other
exception → `error` with the diagnostic; otherwise parse the output with the
sentinel `WINNER:` regex first, fall back to the `Player N wins` phrases,
and default to `draw`. -/
def run_game (po : ProcOutcome) : MatchResult :=
  match po with
  | .timeout => ⟨"timeout", MAX_CYCLES_NAT, none⟩
  | .exn msg => ⟨"error", 0, some msg⟩
  | .completed out =>
    let sentinel := scanWinner out.toList
    let ticks := (scanTick out.toList).getD MAX_CYCLES_NAT
    let winner : Option Int :=
      match sentinel with
      | some w => some w
      | none =>
        if containsStr out.toList "Player 0 wins".toList then some 0
        else if containsStr out.toList "Player 1 wins".toList then some 1
        else none
    if winner = some 0 then ⟨"win", ticks, none⟩
    else if winner = some 1 then ⟨"loss", ticks, none⟩
    else ⟨"draw", ticks, none⟩

/-- C6: the match executor is total over process outcomes (never propagates
a fault): a timeout becomes `timeout` with tick count equal to the cycle
ceiling; an abnormal invocation becomes `error` carrying the diagnostic;
output with neither a `WINNER:` sentinel nor a `Player N wins` phrase is
classified `draw`; and a sentinel value decides the outcome regardless of
any phrases (sentinel priority). -/
theorem run_game_terminal (out msg : String) :
    run_game ProcOutcome.timeout =
      { result := "timeout", ticks := MAX_CYCLES_NAT, error := none }
    ∧ run_game (ProcOutcome.exn msg) =
      { result := "error", ticks := 0, error := some msg }
    ∧ (scanWinner out.toList = none →
        containsStr out.toList "Player 0 wins".toList = false →
        containsStr out.toList "Player 1 wins".toList = false →
        (run_game (ProcOutcome.completed out)).result = "draw")
    ∧ (∀ w : Int, scanWinner out.toList = some w →
        (run_game (ProcOutcome.completed out)).result =
          (if w = 0 then "win" else if w = 1 then "loss" else "draw")) := by
  refine ⟨rfl, rfl, ?_, ?_⟩
  · intro h0 h1 h2
    simp only [run_game]
    rw [h0, h1, h2]
    simp
  · intro w hw
    simp only [run_game]
    rw [hw]
    by_cases h0 : w = 0
    · subst h0
      simp
    · by_cases h1 : w = 1
      · subst h1
        simp
      · simp [h0, h1]

/-- Witness for `run_game_terminal`: a signal-free output is a draw, and an
output whose sentinel says player 0 wins while a phrase says player 1 is
classified by the sentinel. -/
theorem run_game_terminal_witness :
    (run_game (ProcOutcome.completed "game over, nothing decisive")).result = "draw"
    ∧ (run_game (ProcOutcome.completed "Player 1 wins WINNER: 0")).result = "win" := by
  constructor
  · exact (run_game_terminal "game over, nothing decisive" "e").2.2.1
      (by decide) (by decide) (by decide)
  · have h := (run_game_terminal "Player 1 wins WINNER: 0" "e").2.2.2 0 (by decide)
    simpa using h

/-- One cell of the head-to-head matrix: the
`{"wins": 0, "losses": 0, "draws": 0}` dict of
`tournament/update_site_data.py` lines 157/162. -/
structure H2HCell where
  wins : Nat
  losses : Nat
  draws : Nat
deriving DecidableEq, Repr

/-- One historical head-to-head game record as read from the
`head_to_head` arrays of the tournament files. -/
structure H2HGame where
  player0 : String
  player1 : String
  result : String
deriving DecidableEq, Repr

/-- The nested `h2h` dict: a partial map from ordered player pairs to
cells. -/
def H2HMatrix : Type := String → String → Option H2HCell

/-- The initial empty `h2h = {}`. -/
def emptyH2H : H2HMatrix := fun _ _ => none

/-- `if p1 not in h2h[p0]: h2h[p0][p1] = {zeros}`: create the cell only when
absent. -/
def ensureCell (m : H2HMatrix) (a b : String) : H2HMatrix :=
  match m a b with
  | some _ => m
  | none => fun x y => if x = a ∧ y = b then some ⟨0, 0, 0⟩ else m x y

/-- `h2h[a][b]["..."] += 1`: update one existing cell in place. -/
def bumpCell (m : H2HMatrix) (a b : String) (f : H2HCell → H2HCell) :
    H2HMatrix :=
  fun x y => if x = a ∧ y = b then Option.map f (m a b) else m x y

/-- `wins += 1` on a cell. -/
def incWins (c : H2HCell) : H2HCell := { c with wins := c.wins + 1 }

/-- `losses += 1` on a cell. -/
def incLosses (c : H2HCell) : H2HCell := { c with losses := c.losses + 1 }

/-- `draws += 1` on a cell. -/
def incDraws (c : H2HCell) : H2HCell := { c with draws := c.draws + 1 }

/-- Processing one game record in `build_h2h_matrix`
(`tournament/update_site_data.py` lines 149-172): ensure both oriented
cells exist, then increment the winner's `wins` and the loser's `losses`
(or both `draws`); results other than win/loss/draw touch no counter. -/
def h2hStep (m : H2HMatrix) (g : H2HGame) : H2HMatrix :=
  let m2 := ensureCell (ensureCell m g.player0 g.player1) g.player1 g.player0
  if g.result = "win" then
    bumpCell (bumpCell m2 g.player0 g.player1 incWins) g.player1 g.player0 incLosses
  else if g.result = "loss" then
    bumpCell (bumpCell m2 g.player0 g.player1 incLosses) g.player1 g.player0 incWins
  else if g.result = "draw" then
    bumpCell (bumpCell m2 g.player0 g.player1 incDraws) g.player1 g.player0 incDraws
  else m2

/-- `build_h2h_matrix` folded over all historical game records. -/
def build_h2h_matrix (gs : List H2HGame) : H2HMatrix :=
  gs.foldl h2hStep emptyH2H

/-- Win count of the (a, b) cell, 0 when the cell is absent. -/
def winsOf (m : H2HMatrix) (a b : String) : Nat :=
  ((m a b).getD ⟨0, 0, 0⟩).wins

/-- Loss count of the (a, b) cell, 0 when the cell is absent. -/
def lossesOf (m : H2HMatrix) (a b : String) : Nat :=
  ((m a b).getD ⟨0, 0, 0⟩).losses

/-- Draw count of the (a, b) cell, 0 when the cell is absent. -/
def drawsOf (m : H2HMatrix) (a b : String) : Nat :=
  ((m a b).getD ⟨0, 0, 0⟩).draws

/-- Swap the win and loss counters of a cell. -/
def flipCell (c : H2HCell) : H2HCell := ⟨c.losses, c.wins, c.draws⟩

/-- Transpose the matrix and flip every cell; a matrix is symmetric in the
head-to-head sense precisely when this fixes it. -/
def transposeFlip (m : H2HMatrix) : H2HMatrix :=
  fun x y => Option.map flipCell (m y x)

/-- Pointwise value of `ensureCell`. -/
lemma ensureCell_apply (m : H2HMatrix) (a b x y : String) :
    ensureCell m a b x y =
      if x = a ∧ y = b then some ((m a b).getD ⟨0, 0, 0⟩) else m x y := by
  unfold ensureCell
  rcases hab : m a b with _ | c
  · simp
  · split_ifs with h
    · rcases h with ⟨rfl, rfl⟩
      simp [hab]
    · rfl

/-- Pointwise value of `bumpCell`. -/
lemma bumpCell_apply (m : H2HMatrix) (a b : String) (f : H2HCell → H2HCell)
    (x y : String) :
    bumpCell m a b f x y =
      if x = a ∧ y = b then Option.map f (m a b) else m x y := rfl

/-- `flipCell` is an involution. -/
lemma flipCell_flipCell (c : H2HCell) : flipCell (flipCell c) = c := rfl

/-- `transposeFlip` commutes with `ensureCell`, with the pair swapped. -/
lemma transposeFlip_ensure (m : H2HMatrix) (a b : String) :
    transposeFlip (ensureCell m a b) = ensureCell (transposeFlip m) b a := by
  funext x y
  show Option.map flipCell (ensureCell m a b y x) =
    ensureCell (transposeFlip m) b a x y
  rw [ensureCell_apply, ensureCell_apply]
  by_cases h : y = a ∧ x = b
  · have h' : x = b ∧ y = a := ⟨h.2, h.1⟩
    rw [if_pos h, if_pos h']
    show _ = some ((Option.map flipCell (m a b)).getD ⟨0, 0, 0⟩)
    rcases m a b with _ | c <;> simp [flipCell]
  · have h' : ¬(x = b ∧ y = a) := fun hc => h ⟨hc.2, hc.1⟩
    rw [if_neg h, if_neg h']
    rfl

/-- `transposeFlip` commutes with `bumpCell`, with the pair swapped and the
update conjugated by `flipCell`. -/
lemma transposeFlip_bump (m : H2HMatrix) (a b : String)
    (f : H2HCell → H2HCell) :
    transposeFlip (bumpCell m a b f) =
      bumpCell (transposeFlip m) b a (fun c => flipCell (f (flipCell c))) := by
  funext x y
  show Option.map flipCell (bumpCell m a b f y x) =
    bumpCell (transposeFlip m) b a (fun c => flipCell (f (flipCell c))) x y
  rw [bumpCell_apply, bumpCell_apply]
  by_cases h : y = a ∧ x = b
  · have h' : x = b ∧ y = a := ⟨h.2, h.1⟩
    rw [if_pos h, if_pos h']
    show _ = Option.map _ (Option.map flipCell (m a b))
    rcases m a b with _ | c <;> simp [flipCell_flipCell]
  · have h' : ¬(x = b ∧ y = a) := fun hc => h ⟨hc.2, hc.1⟩
    rw [if_neg h, if_neg h']
    rfl

/-- Two `ensureCell` operations commute. -/
lemma ensureCell_comm (m : H2HMatrix) (a b c d : String) :
    ensureCell (ensureCell m a b) c d = ensureCell (ensureCell m c d) a b := by
  funext x y
  simp only [ensureCell_apply]
  by_cases h1 : x = a ∧ y = b <;> by_cases h2 : x = c ∧ y = d
  · rcases h1 with ⟨rfl, rfl⟩
    rcases h2 with ⟨rfl, rfl⟩
    simp
  · rcases h1 with ⟨rfl, rfl⟩
    simp [h2]
  · rcases h2 with ⟨rfl, rfl⟩
    simp [h1]
  · simp [h1, h2]

/-- Two `bumpCell` operations commute when their updates commute. -/
lemma bumpCell_comm (m : H2HMatrix) (a b c d : String)
    (f g' : H2HCell → H2HCell) (hfg : ∀ x, f (g' x) = g' (f x)) :
    bumpCell (bumpCell m a b f) c d g' = bumpCell (bumpCell m c d g') a b f := by
  funext x y
  simp only [bumpCell_apply]
  by_cases h1 : x = a ∧ y = b <;> by_cases h2 : x = c ∧ y = d
  · rcases h1 with ⟨rfl, rfl⟩
    rcases h2 with ⟨rfl, rfl⟩
    simp only [if_pos (And.intro rfl rfl)]
    rcases m x y with _ | cc <;> simp [hfg]
  · rcases h1 with ⟨rfl, rfl⟩
    simp [h2]
  · rcases h2 with ⟨rfl, rfl⟩
    simp [h1]
  · simp [h1, h2]

/-- `transposeFlip` commutes with one `build_h2h_matrix` step. -/
lemma transposeFlip_step (m : H2HMatrix) (g : H2HGame) :
    transposeFlip (h2hStep m g) = h2hStep (transposeFlip m) g := by
  have hW : (fun c => flipCell (incWins (flipCell c))) = incLosses := by
    funext c; cases c; rfl
  have hL : (fun c => flipCell (incLosses (flipCell c))) = incWins := by
    funext c; cases c; rfl
  have hD : (fun c => flipCell (incDraws (flipCell c))) = incDraws := by
    funext c; cases c; rfl
  simp only [h2hStep]
  split_ifs with hw hl hd
  · rw [transposeFlip_bump, hL, transposeFlip_bump, hW, transposeFlip_ensure,
      transposeFlip_ensure, ensureCell_comm, bumpCell_comm]
    intro x; cases x; rfl
  · rw [transposeFlip_bump, hW, transposeFlip_bump, hL, transposeFlip_ensure,
      transposeFlip_ensure, ensureCell_comm, bumpCell_comm]
    intro x; cases x; rfl
  · rw [transposeFlip_bump, hD, transposeFlip_bump, hD, transposeFlip_ensure,
      transposeFlip_ensure, ensureCell_comm, bumpCell_comm]
    intro x; cases x; rfl
  · rw [transposeFlip_ensure, transposeFlip_ensure, ensureCell_comm]

/-- The built head-to-head matrix is a fixed point of `transposeFlip`. -/
lemma build_h2h_sym_aux :
    ∀ (gs : List H2HGame) (m : H2HMatrix), transposeFlip m = m →
      transposeFlip (gs.foldl h2hStep m) = gs.foldl h2hStep m := by
  intro gs
  induction gs with
  | nil => intro m hm; simpa using hm
  | cons g t ih =>
    intro m hm
    simp only [List.foldl_cons]
    exact ih (h2hStep m g) (by rw [transposeFlip_step, hm])

/-- A `transposeFlip` fixed point has symmetric win/loss and draw counts. -/
lemma h2h_sym_counters (m : H2HMatrix) (h : transposeFlip m = m)
    (a b : String) :
    winsOf m a b = lossesOf m b a ∧ drawsOf m a b = drawsOf m b a := by
  have hm := congrFun (congrFun h a) b
  simp only [transposeFlip] at hm
  rcases hx : m b a with _ | c
  · rw [hx] at hm
    simp only [Option.map_none'] at hm
    unfold winsOf lossesOf drawsOf
    rw [hx, ← hm]
    exact ⟨rfl, rfl⟩
  · rw [hx] at hm
    simp only [Option.map_some'] at hm
    unfold winsOf lossesOf drawsOf
    rw [hx, ← hm]
    exact ⟨rfl, rfl⟩

/-- Step unfolding for a `win` record. -/
lemma h2hStep_win_eq (m : H2HMatrix) (g : H2HGame) (hw : g.result = "win") :
    h2hStep m g =
      bumpCell (bumpCell (ensureCell (ensureCell m g.player0 g.player1)
        g.player1 g.player0) g.player0 g.player1 incWins)
        g.player1 g.player0 incLosses := by
  simp [h2hStep, hw]

/-- Step unfolding for a `loss` record. -/
lemma h2hStep_loss_eq (m : H2HMatrix) (g : H2HGame) (hl : g.result = "loss") :
    h2hStep m g =
      bumpCell (bumpCell (ensureCell (ensureCell m g.player0 g.player1)
        g.player1 g.player0) g.player0 g.player1 incLosses)
        g.player1 g.player0 incWins := by
  simp [h2hStep, hl]

/-- Step unfolding for a `draw` record. -/
lemma h2hStep_draw_eq (m : H2HMatrix) (g : H2HGame) (hd : g.result = "draw") :
    h2hStep m g =
      bumpCell (bumpCell (ensureCell (ensureCell m g.player0 g.player1)
        g.player1 g.player0) g.player0 g.player1 incDraws)
        g.player1 g.player0 incDraws := by
  simp [h2hStep, hd]

/-- Step unfolding for any other result (timeout, error, ...): only the two
zero cells are ensured. -/
lemma h2hStep_other_eq (m : H2HMatrix) (g : H2HGame) (h1 : g.result ≠ "win")
    (h2 : g.result ≠ "loss") (h3 : g.result ≠ "draw") :
    h2hStep m g =
      ensureCell (ensureCell m g.player0 g.player1) g.player1 g.player0 := by
  simp [h2hStep, h1, h2, h3]

/-- `ensureCell` never changes the counter view of any cell. -/
lemma ensureCell_counters (m : H2HMatrix) (a b x y : String) :
    (ensureCell m a b x y).getD ⟨0, 0, 0⟩ = (m x y).getD ⟨0, 0, 0⟩ := by
  rw [ensureCell_apply]
  by_cases h : x = a ∧ y = b
  · rcases h with ⟨rfl, rfl⟩
    simp
  · simp [h]

/-- Results other than win/loss/draw change no counter anywhere. -/
lemma h2hStep_other_counters (m : H2HMatrix) (g : H2HGame)
    (h1 : g.result ≠ "win") (h2 : g.result ≠ "loss") (h3 : g.result ≠ "draw")
    (x y : String) :
    winsOf (h2hStep m g) x y = winsOf m x y
    ∧ lossesOf (h2hStep m g) x y = lossesOf m x y
    ∧ drawsOf (h2hStep m g) x y = drawsOf m x y := by
  rw [h2hStep_other_eq m g h1 h2 h3]
  unfold winsOf lossesOf drawsOf
  rw [ensureCell_counters, ensureCell_counters]
  exact ⟨rfl, rfl, rfl⟩

/-- A `win` between distinct players adds exactly one to the winner's wins
and one to the loser's losses, leaving the other four counters of the two
cells unchanged. -/
lemma h2hStep_win_counts (m : H2HMatrix) (g : H2HGame)
    (hpp : g.player0 ≠ g.player1) (hw : g.result = "win") :
    winsOf (h2hStep m g) g.player0 g.player1 = winsOf m g.player0 g.player1 + 1
    ∧ lossesOf (h2hStep m g) g.player1 g.player0 =
        lossesOf m g.player1 g.player0 + 1
    ∧ drawsOf (h2hStep m g) g.player0 g.player1 = drawsOf m g.player0 g.player1
    ∧ lossesOf (h2hStep m g) g.player0 g.player1 = lossesOf m g.player0 g.player1
    ∧ winsOf (h2hStep m g) g.player1 g.player0 = winsOf m g.player1 g.player0
    ∧ drawsOf (h2hStep m g) g.player1 g.player0 = drawsOf m g.player1 g.player0
    := by
  have hne1 : ¬(g.player0 = g.player1 ∧ g.player1 = g.player0) := fun h => hpp h.1
  have hne2 : ¬(g.player1 = g.player0 ∧ g.player0 = g.player1) := fun h =>
    hpp h.1.symm
  rw [h2hStep_win_eq m g hw]
  refine ⟨?_, ?_, ?_, ?_, ?_, ?_⟩ <;>
    simp [winsOf, lossesOf, drawsOf, bumpCell_apply, ensureCell_apply,
      hne1, hne2, incWins, incLosses]

/-- A `loss` between distinct players adds exactly one to player 0's losses
and one to player 1's wins, leaving the other four counters unchanged. -/
lemma h2hStep_loss_counts (m : H2HMatrix) (g : H2HGame)
    (hpp : g.player0 ≠ g.player1) (hl : g.result = "loss") :
    lossesOf (h2hStep m g) g.player0 g.player1 =
        lossesOf m g.player0 g.player1 + 1
    ∧ winsOf (h2hStep m g) g.player1 g.player0 = winsOf m g.player1 g.player0 + 1
    ∧ drawsOf (h2hStep m g) g.player0 g.player1 = drawsOf m g.player0 g.player1
    ∧ winsOf (h2hStep m g) g.player0 g.player1 = winsOf m g.player0 g.player1
    ∧ lossesOf (h2hStep m g) g.player1 g.player0 = lossesOf m g.player1 g.player0
    ∧ drawsOf (h2hStep m g) g.player1 g.player0 = drawsOf m g.player1 g.player0
    := by
  have hne1 : ¬(g.player0 = g.player1 ∧ g.player1 = g.player0) := fun h => hpp h.1
  have hne2 : ¬(g.player1 = g.player0 ∧ g.player0 = g.player1) := fun h =>
    hpp h.1.symm
  rw [h2hStep_loss_eq m g hl]
  refine ⟨?_, ?_, ?_, ?_, ?_, ?_⟩ <;>
    simp [winsOf, lossesOf, drawsOf, bumpCell_apply, ensureCell_apply,
      hne1, hne2, incWins, incLosses]

/-- A `draw` between distinct players adds exactly one to each side's draws,
leaving wins and losses unchanged. -/
lemma h2hStep_draw_counts (m : H2HMatrix) (g : H2HGame)
    (hpp : g.player0 ≠ g.player1) (hd : g.result = "draw") :
    drawsOf (h2hStep m g) g.player0 g.player1 = drawsOf m g.player0 g.player1 + 1
    ∧ drawsOf (h2hStep m g) g.player1 g.player0 =
        drawsOf m g.player1 g.player0 + 1
    ∧ winsOf (h2hStep m g) g.player0 g.player1 = winsOf m g.player0 g.player1
    ∧ lossesOf (h2hStep m g) g.player0 g.player1 = lossesOf m g.player0 g.player1
    ∧ winsOf (h2hStep m g) g.player1 g.player0 = winsOf m g.player1 g.player0
    ∧ lossesOf (h2hStep m g) g.player1 g.player0 = lossesOf m g.player1 g.player0
    := by
  have hne1 : ¬(g.player0 = g.player1 ∧ g.player1 = g.player0) := fun h => hpp h.1
  have hne2 : ¬(g.player1 = g.player0 ∧ g.player0 = g.player1) := fun h =>
    hpp h.1.symm
  rw [h2hStep_draw_eq m g hd]
  refine ⟨?_, ?_, ?_, ?_, ?_, ?_⟩ <;>
    simp [winsOf, lossesOf, drawsOf, bumpCell_apply, ensureCell_apply,
      hne1, hne2, incDraws]

/-- Cells other than the two oriented cells of the recorded pair are never
touched by a step. -/
lemma h2hStep_frame (m : H2HMatrix) (g : H2HGame) (x y : String)
    (hxy1 : ¬(x = g.player0 ∧ y = g.player1))
    (hxy2 : ¬(x = g.player1 ∧ y = g.player0)) :
    h2hStep m g x y = m x y := by
  simp only [h2hStep]
  split_ifs with hw hl hd <;>
    simp [bumpCell_apply, ensureCell_apply, hxy1, hxy2]

/-- C7 (amended): the head-to-head matrix is symmetric — for all players,
`wins(A,B) = losses(B,A)` and `draws(A,B) = draws(B,A)` — and each recorded
game between distinct players with outcome win, loss or draw increments
exactly one counter on each side (winner's wins and loser's losses, or both
draws); games with any other outcome (timeout, error) increment no counter,
and cells of other pairs are never touched, so no counter is ever
overwritten or decremented. -/
theorem h2h_matrix_spec (gs : List H2HGame) (m : H2HMatrix) (g : H2HGame)
    (a b x y : String) :
    (winsOf (build_h2h_matrix gs) a b = lossesOf (build_h2h_matrix gs) b a
      ∧ drawsOf (build_h2h_matrix gs) a b = drawsOf (build_h2h_matrix gs) b a)
    ∧ (g.player0 ≠ g.player1 → g.result = "win" →
        winsOf (h2hStep m g) g.player0 g.player1 =
            winsOf m g.player0 g.player1 + 1
        ∧ lossesOf (h2hStep m g) g.player1 g.player0 =
            lossesOf m g.player1 g.player0 + 1
        ∧ drawsOf (h2hStep m g) g.player0 g.player1 =
            drawsOf m g.player0 g.player1
        ∧ lossesOf (h2hStep m g) g.player0 g.player1 =
            lossesOf m g.player0 g.player1
        ∧ winsOf (h2hStep m g) g.player1 g.player0 =
            winsOf m g.player1 g.player0
        ∧ drawsOf (h2hStep m g) g.player1 g.player0 =
            drawsOf m g.player1 g.player0)
    ∧ (g.player0 ≠ g.player1 → g.result = "loss" →
        lossesOf (h2hStep m g) g.player0 g.player1 =
            lossesOf m g.player0 g.player1 + 1
        ∧ winsOf (h2hStep m g) g.player1 g.player0 =
            winsOf m g.player1 g.player0 + 1)
    ∧ (g.player0 ≠ g.player1 → g.result = "draw" →
        drawsOf (h2hStep m g) g.player0 g.player1 =
            drawsOf m g.player0 g.player1 + 1
        ∧ drawsOf (h2hStep m g) g.player1 g.player0 =
            drawsOf m g.player1 g.player0 + 1
        ∧ winsOf (h2hStep m g) g.player0 g.player1 =
            winsOf m g.player0 g.player1
        ∧ lossesOf (h2hStep m g) g.player0 g.player1 =
            lossesOf m g.player0 g.player1)
    ∧ (g.result ≠ "win" → g.result ≠ "loss" → g.result ≠ "draw" →
        winsOf (h2hStep m g) x y = winsOf m x y
        ∧ lossesOf (h2hStep m g) x y = lossesOf m x y
        ∧ drawsOf (h2hStep m g) x y = drawsOf m x y)
    ∧ (¬(x = g.player0 ∧ y = g.player1) → ¬(x = g.player1 ∧ y = g.player0) →
        h2hStep m g x y = m x y) := by
  refine ⟨?_, ?_, ?_, ?_, ?_, ?_⟩
  · exact h2h_sym_counters (build_h2h_matrix gs)
      (build_h2h_sym_aux gs emptyH2H rfl) a b
  · exact fun hpp hw => h2hStep_win_counts m g hpp hw
  · exact fun hpp hl =>
      ⟨(h2hStep_loss_counts m g hpp hl).1, (h2hStep_loss_counts m g hpp hl).2.1⟩
  · exact fun hpp hd =>
      ⟨(h2hStep_draw_counts m g hpp hd).1, (h2hStep_draw_counts m g hpp hd).2.1,
       (h2hStep_draw_counts m g hpp hd).2.2.1,
       (h2hStep_draw_counts m g hpp hd).2.2.2.1⟩
  · exact fun h1 h2 h3 => h2hStep_other_counters m g h1 h2 h3 x y
  · exact fun hxy1 hxy2 => h2hStep_frame m g x y hxy1 hxy2

/-- The games of the historical record between an ordered pair. -/
def countGamesFor (gs : List H2HGame) (a b : String) : Nat :=
  (gs.filter (fun g => g.player0 == a && g.player1 == b)).length

/-- Counterexample to C7 as stated: a recorded `timeout` head-to-head game
(as the tournament runner persists) increments no counter at all — after
one recorded (A, B) game, all three counters of the (A, B) cell are still 0,
not one increment per side. -/
theorem h2h_timeout_no_increment :
    countGamesFor [⟨"A", "B", "timeout"⟩] "A" "B" = 1
    ∧ winsOf (build_h2h_matrix [⟨"A", "B", "timeout"⟩]) "A" "B"
       + lossesOf (build_h2h_matrix [⟨"A", "B", "timeout"⟩]) "A" "B"
       + drawsOf (build_h2h_matrix [⟨"A", "B", "timeout"⟩]) "A" "B" = 0 := by
  constructor
  · rfl
  · decide

/-- Concrete game for the witness of the amended head-to-head theorem. -/
def demoWinGame : H2HGame := ⟨"A", "B", "win"⟩

/-- Witness for `h2h_matrix_spec`: one recorded (A, B) win on the empty
matrix increments A's wins and B's losses. -/
theorem h2h_matrix_spec_witness :
    winsOf (h2hStep emptyH2H demoWinGame) "A" "B" = winsOf emptyH2H "A" "B" + 1
    ∧ lossesOf (h2hStep emptyH2H demoWinGame) "B" "A" =
        lossesOf emptyH2H "B" "A" + 1 :=
  ⟨((h2h_matrix_spec [] emptyH2H demoWinGame "A" "B" "A" "B").2.1
      (by decide) (by decide)).1,
   ((h2h_matrix_spec [] emptyH2H demoWinGame "A" "B" "A" "B").2.1
      (by decide) (by decide)).2.1⟩

/-- One entry the arena run appends to the persisted leaderboard artifact
(`benchmark_arena.py` lines 607-616); only the fields relevant to the
append are modelled. -/
structure ArenaLbEntry where
  model : String
  score : ℚ
deriving DecidableEq, Repr

/-- The persisted `benchmark_results/leaderboard.json` artifact. -/
structure ArenaLeaderboard where
  entries : List ArenaLbEntry
deriving DecidableEq, Repr

/-- `benchmark_arena.py` lines 599-619: load the existing leaderboard (or
start `{"entries": []}` when absent), append one entry per contestant of
this run, and write it back. -/
def arenaUpdateLeaderboard (prior : Option ArenaLeaderboard)
    (scores : List (String × ℚ)) : ArenaLeaderboard :=
  ⟨(prior.getD ⟨[]⟩).entries ++ scores.map (fun p => ⟨p.1, p.2⟩)⟩

/-- The aggregation pass of `generate_leaderboard.py` (`main`, lines
296-320): pick the best run entry per model from the loaded run records and
emit the leaderboard slots.  The artifact that may already exist on disk is
passed as `prior` to make the data flow explicit; the script never reads
it, which the theorem below states. -/
def aggregationPassEntries (models : List String) (runEntries : List RunEntry)
    (prior : Option ArenaLeaderboard) : List (Option RunEntry) :=
  models.map (fun m => bestFor m runEntries)

/-- Counterexample to C8 as stated: the arena run's leaderboard update
appends to the prior artifact, so two different prior contents give two
different new artifacts — the prior contents do influence the output, and
the artifact is incrementally patched rather than regenerated wholesale. -/
theorem leaderboard_append_depends_on_prior :
    arenaUpdateLeaderboard (some ⟨[⟨"old-model", 10⟩]⟩) [("m", 20)] ≠
      arenaUpdateLeaderboard none [("m", 20)] := by
  simp [arenaUpdateLeaderboard]

/-- C8 (amended): the aggregation pass (`generate_leaderboard.py`)
regenerates the leaderboard wholesale — its output is a function of the run
records only, identical for any prior artifact contents — while the arena
run (`benchmark_arena.py`) incrementally patches the artifact: its new
content is exactly the prior entries with this run's entries appended. -/
theorem leaderboard_regeneration (models : List String)
    (runEntries : List RunEntry) (p1 p2 : Option ArenaLeaderboard)
    (scores : List (String × ℚ)) :
    aggregationPassEntries models runEntries p1 =
      aggregationPassEntries models runEntries p2
    ∧ (arenaUpdateLeaderboard p1 scores).entries =
        (p1.getD ⟨[]⟩).entries ++ scores.map (fun p => ⟨p.1, p.2⟩) :=
  ⟨rfl, rfl⟩

/-- `re.sub(r'^KEY=.*$', 'KEY' + value, content, flags=re.MULTILINE)` on the
line decomposition of the configuration file: every line starting with the
key is replaced by the key followed by the new value, all other lines kept. -/
def subLines (key val : List Char) (lines : List (List Char)) :
    List (List Char) :=
  lines.map (fun l => if List.isPrefixOf key l then key ++ val else l)

/-- `update_config(ai1, ai2)` from `benchmark_arena.py` lines 100-111
(identical in `tournament/run_tournament.py` lines 71-82): four sequential
anchored substitutions for AI1, AI2, max_cycles and headless. -/
def update_config (ai1 ai2 : List Char) (lines : List (List Char)) :
    List (List Char) :=
  subLines "headless=".toList "true".toList
    (subLines "max_cycles=".toList (toString MAX_CYCLES_NAT).toList
      (subLines "AI2=".toList ai2
        (subLines "AI1=".toList ai1 lines)))

/-- A rewritten AI1 line never matches the AI2 key. -/
lemma key21 (s : List Char) :
    ¬ (['A', 'I', '2', '='] <+: ('A' :: 'I' :: '1' :: '=' :: s)) := by
  intro h
  rcases h with ⟨t, ht⟩
  simp at ht

/-- A rewritten AI1 line never matches the max_cycles key. -/
lemma key31 (s : List Char) :
    ¬ (['m', 'a', 'x', '_', 'c', 'y', 'c', 'l', 'e', 's', '='] <+:
        ('A' :: 'I' :: '1' :: '=' :: s)) := by
  intro h
  rcases h with ⟨t, ht⟩
  simp at ht

/-- A rewritten AI1 line never matches the headless key. -/
lemma key41 (s : List Char) :
    ¬ (['h', 'e', 'a', 'd', 'l', 'e', 's', 's', '='] <+:
        ('A' :: 'I' :: '1' :: '=' :: s)) := by
  intro h
  rcases h with ⟨t, ht⟩
  simp at ht

/-- A rewritten AI2 line never matches the max_cycles key. -/
lemma key32 (s : List Char) :
    ¬ (['m', 'a', 'x', '_', 'c', 'y', 'c', 'l', 'e', 's', '='] <+:
        ('A' :: 'I' :: '2' :: '=' :: s)) := by
  intro h
  rcases h with ⟨t, ht⟩
  simp at ht

/-- A rewritten AI2 line never matches the headless key. -/
lemma key42 (s : List Char) :
    ¬ (['h', 'e', 'a', 'd', 'l', 'e', 's', 's', '='] <+:
        ('A' :: 'I' :: '2' :: '=' :: s)) := by
  intro h
  rcases h with ⟨t, ht⟩
  simp at ht

/-- A rewritten max_cycles line never matches the headless key. -/
lemma key43 (s : List Char) :
    ¬ (['h', 'e', 'a', 'd', 'l', 'e', 's', 's', '='] <+:
        ('m' :: 'a' :: 'x' :: '_' :: 'c' :: 'y' :: 'c' :: 'l' :: 'e' :: 's'
          :: '=' :: s)) := by
  intro h
  rcases h with ⟨t, ht⟩
  simp at ht

/-- C9: the per-match configuration rewrite maps each line independently —
a line starting with `AI1=`, `AI2=`, `max_cycles=` or `headless=` becomes
that key with the new value (the contestant identifiers, the cycle ceiling,
`true`), and every other line of the file is preserved unchanged. -/
theorem update_config_frame (ai1 ai2 : List Char) (lines : List (List Char)) :
    update_config ai1 ai2 lines =
      lines.map (fun l =>
        if List.isPrefixOf "AI1=".toList l then "AI1=".toList ++ ai1
        else if List.isPrefixOf "AI2=".toList l then "AI2=".toList ++ ai2
        else if List.isPrefixOf "max_cycles=".toList l then
          "max_cycles=".toList ++ (toString MAX_CYCLES_NAT).toList
        else if List.isPrefixOf "headless=".toList l then
          "headless=".toList ++ "true".toList
        else l) := by
  unfold update_config subLines
  rw [List.map_map, List.map_map, List.map_map]
  apply List.map_congr_left
  intro l _
  simp only [Function.comp]
  by_cases h1 : ['A', 'I', '1', '='] <+: l
  · simp [h1, key21, key31, key41]
  · by_cases h2 : ['A', 'I', '2', '='] <+: l
    · simp [h1, h2, key32, key42]
    · by_cases h3 : ['m', 'a', 'x', '_', 'c', 'y', 'c', 'l', 'e', 's', '='] <+: l
      · simp [h1, h2, h3, key43]
      · by_cases h4 : ['h', 'e', 'a', 'd', 'l', 'e', 's', 's', '='] <+: l
        · simp [h1, h2, h3, h4]
        · simp [h1, h2, h3, h4]
